import Mathlib

/-!
# eveirc, package `db`: schema migration and entity store

A shallow embedding of `src/db/db.go`.

* A migration script is the list of lines that `bufio.Scanner` yields for
  `db/schema.sql` (line terminators already stripped).
* Go strings are modelled by `String`; `strings.HasPrefix` and
  `strings.HasSuffix` compare characters, which agrees with Go's byte
  comparison for the ASCII patterns `"/**"` and `";"` used by the code.
* `stmtSchemaVersion` is a Go `int` that is only ever incremented once per
  line; it is modelled by `Nat` (a script would need `2^63` marker lines to
  overflow it).
* The store `Db` records the rows of the `schema` table and the log of the
  migration statements that `db.Exec` has applied.  Each `db.Exec` commits on
  its own (the code opens no transaction) and `log.Fatalf` ends the process,
  so the store reached at a fatal error is the store the file is left in.
* Whether the SQL engine accepts a migration statement is a parameter
  (`Engine`): it may depend on everything applied so far.  The four fixed
  statements on the `schema` table are assumed not to fail.
-/

namespace db

/-! ## Strings -/

/-- Go `strings.HasPrefix(s, prefix)`. -/
def HasPrefix (s pre : String) : Bool := pre.data.isPrefixOf s.data

/-- Go `strings.HasSuffix(s, suffix)`. -/
def HasSuffix (s suf : String) : Bool := suf.data.isSuffixOf s.data

/-! ## The store -/

/-- The SQLite file as far as migration is concerned: the rows of table
`schema` (`none` while the table does not exist) and the migration statements
applied so far, oldest first. -/
structure Db where
  schema : Option (List Int)
  applied : List String
deriving DecidableEq, Repr

/-- The SQL engine's verdict on a migration statement, given the statements
applied before it: `none` when it succeeds, `some err` when it fails. -/
abbrev Engine := List String → String → Option String

/-- The state in which `log.Fatalf` leaves things: the message logged (without
the logger's time stamp and the final newline) and the store at the moment the
process exits. -/
structure Fatal where
  message : String
  db : Db
deriving DecidableEq, Repr

/-- The call `db.Exec(stmt)` on a migration statement: on success the statement
is applied (and committed), on failure the store is unchanged. -/
def Db.Exec (engine : Engine) (d : Db) (stmt : String) : Except String Db :=
  match engine d.applied stmt with
  | none => .ok ⟨d.schema, d.applied ++ [stmt]⟩
  | some err => .error err

/-- The function `checkErr(err, message)`: a non-nil error is fatal. -/
def checkErr {α : Type} (r : Except String α) (message : String) (d : Db) :
    Except Fatal α :=
  match r with
  | .ok a => .ok a
  | .error err => .error ⟨message ++ ": " ++ err, d⟩

/-- The statement `CREATE TABLE IF NOT EXISTS schema (version INT NOT NULL)`. -/
def createSchemaTable (d : Db) : Db := ⟨some (d.schema.getD []), d.applied⟩

/-- The query `SELECT version FROM schema`. -/
def selectVersion (d : Db) : List Int := d.schema.getD []

/-- The statement `DELETE FROM schema`. -/
def deleteSchema (d : Db) : Db := ⟨some [], d.applied⟩

/-- The statement `INSERT INTO schema VALUES (v)`. -/
def insertSchema (d : Db) (v : Int) : Db := ⟨some (d.schema.getD [] ++ [v]), d.applied⟩

/-- The function `schemaVersion`: creates the version table when absent and
returns the version of the first row, 0 when there is none. -/
def schemaVersion (d : Db) : Int × Db :=
  let d := createSchemaTable d
  match selectVersion d with
  | version :: _ => (version, d)
  | [] => (0, d)

/-! ## Migration -/

/-- The scanning loop of `updateSchema` (`for schemaScanner.Scan() ...`), from
the state `stmt`, `stmtSchemaVersion`, `d` over the remaining lines.  Returns
the final block counter and store, or the fatal error of `checkErr`. -/
def scanLoop (engine : Engine) (currentSchema : Int) :
    List String → String → Nat → Db → Except Fatal (Nat × Db)
  | [], _, stmtSchemaVersion, d => .ok (stmtSchemaVersion, d)
  | line :: rest, stmt, stmtSchemaVersion, d =>
    let stmtSchemaVersion :=
      if HasPrefix line "/**" then stmtSchemaVersion + 1 else stmtSchemaVersion
    let stmt := stmt ++ line
    if HasSuffix line ";" then
      if (stmtSchemaVersion : Int) > currentSchema then
        match checkErr (d.Exec engine stmt) "Failed to apply schema" d with
        | .error f => .error f
        | .ok d => scanLoop engine currentSchema rest "" stmtSchemaVersion d
      else
        scanLoop engine currentSchema rest "" stmtSchemaVersion d
    else
      scanLoop engine currentSchema rest stmt stmtSchemaVersion d

/-- The function `updateSchema`, on the lines of `db/schema.sql` (the file is
taken to open; `log.Printf` does not touch the store).  The version row is
deleted and inserted whatever the comparison of the counters says: the test
`stmtSchemaVersion > currentSchema` after the loop guards the log line only. -/
def updateSchema (engine : Engine) (script : List String) (d : Db) : Except Fatal Db :=
  match schemaVersion d with
  | (currentSchema, d) =>
    match scanLoop engine currentSchema script "" 0 d with
    | .error f => .error f
    | .ok (stmtSchemaVersion, d) =>
      .ok (insertSchema (deleteSchema d) (stmtSchemaVersion : Int))

/-! ## The scan without the store

The statements the loop hands to `db.Exec` depend only on the script and on
`currentSchema`; these functions follow the loop's two variables. -/

/-- A line that starts a migration block. -/
def isMarker (line : String) : Bool := HasPrefix line "/**"

/-- A line that ends a statement. -/
def isTerminator (line : String) : Bool := HasSuffix line ";"

/-- The number of block markers in a list of lines. -/
def blocks (script : List String) : Nat := script.countP isMarker

/-- The value of `stmt` after the loop has read `lines` from `stmt`. -/
def stmtAfter : List String → String → String
  | [], stmt => stmt
  | line :: rest, stmt =>
    if HasSuffix line ";" then stmtAfter rest "" else stmtAfter rest (stmt ++ line)

/-- The statements the loop passes to `db.Exec` when none fails, each with the
value of `stmtSchemaVersion` at its terminating line, in the order of the
calls. -/
def pendingFrom (currentSchema : Int) : List String → String → Nat → List (Nat × String)
  | [], _, _ => []
  | line :: rest, stmt, b =>
    let b := if HasPrefix line "/**" then b + 1 else b
    if HasSuffix line ";" then
      if (b : Int) > currentSchema then
        (b, stmt ++ line) :: pendingFrom currentSchema rest "" b
      else pendingFrom currentSchema rest "" b
    else pendingFrom currentSchema rest (stmt ++ line) b

/-- Executing a list of statements in order, stopping at the first failure
with the fatal error of `checkErr`. -/
def execAll (engine : Engine) : List String → Db → Except Fatal Db
  | [], d => .ok d
  | stmt :: rest, d =>
    match checkErr (d.Exec engine stmt) "Failed to apply schema" d with
    | .error f => .error f
    | .ok d => execAll engine rest d

/-! ## The script read declaratively -/

/-- Line `i` of the script ends in `;`. -/
def terminatedAt (script : List String) (i : Nat) : Bool :=
  match script[i]? with
  | some line => HasSuffix line ";"
  | none => false

/-- The number of lines beginning with `/**` among lines `0..i` of the script,
line `i` included. -/
def blockCounterAt (script : List String) (i : Nat) : Nat :=
  blocks (script.take (i + 1))

/-- The text of the statement that ends at line `i`: the lines after the
previous terminating line, then line `i`, concatenated without separator. -/
def statementAt (script : List String) (i : Nat) : String :=
  String.join (((script.take i).rtakeWhile (fun line => !isTerminator line)) ++
    (script[i]?).toList)

/-- The statements whose terminating line is reached while the block counter
exceeds `v`, with that counter, in script order. -/
def executedSpec (v : Int) (script : List String) : List (Nat × String) :=
  ((List.range script.length).filter
      (fun i => terminatedAt script i && decide ((blockCounterAt script i : Int) > v))).map
    (fun i => (blockCounterAt script i, statementAt script i))

/-- An engine that accepts every statement. -/
def acceptAll : Engine := fun _ _ => none

/-- The statements of the script that a run on store `d` hands to `db.Exec`:
those of `executedSpec` at the version stored in `d`. -/
def toExecute (script : List String) (d : Db) : List String :=
  (executedSpec (schemaVersion d).1 script).map Prod.snd


/-- Successive startups, one script per startup (`main` calls `Init`, which
calls `updateSchema`): the version stored after each run, and the final store;
the first fatal error ends the sequence. -/
def startups (engine : Engine) : List (List String) → Db → Except Fatal (List Int × Db)
  | [], d => .ok ([], d)
  | script :: rest, d =>
    match updateSchema engine script d with
    | .error f => .error f
    | .ok d1 =>
      match startups engine rest d1 with
      | .error f => .error f
      | .ok (versions, d2) => .ok ((schemaVersion d1).1 :: versions, d2)

/-! ## The scan with line provenance -/

/-- The loop of `updateSchema` with every line tagged by the block it is read
in, that is the value of `stmtSchemaVersion` once the line's marker test is
done: for each call of `db.Exec`, in order, the tagged lines concatenated into
its statement.  `acc` holds the tagged lines that make up `stmt`. -/
def tracedFrom (currentSchema : Int) :
    List String → List (Nat × String) → Nat → List (List (Nat × String))
  | [], _, _ => []
  | line :: rest, acc, b =>
    let b := if HasPrefix line "/**" then b + 1 else b
    let acc := acc ++ [(b, line)]
    if HasSuffix line ";" then
      if (b : Int) > currentSchema then acc :: tracedFrom currentSchema rest [] b
      else tracedFrom currentSchema rest [] b
    else tracedFrom currentSchema rest acc b

/-- The statement text of a list of tagged lines. -/
def textOf (seg : List (Nat × String)) : String := String.join (seg.map Prod.snd)

/-- Line `i` of the script begins with the block marker. -/
def markerAt (script : List String) (i : Nat) : Bool :=
  match script[i]? with
  | some line => HasPrefix line "/**"
  | none => false

/-- Every statement is closed before the next block marker: whenever the loop
reads a block marker, `stmt` is empty. -/
def closedAtMarkers (script : List String) : Prop :=
  ∀ i, i < script.length → markerAt script i = true → stmtAfter (script.take i) "" = ""

/-! ## Example scripts, stores and engines -/

/-- A script with three blocks; the first statement spans two lines. -/
def scriptThreeBlocks : List String :=
  ["/** v1 */",
   "CREATE TABLE accounts (id INTEGER PRIMARY KEY,",
   " email TEXT);",
   "",
   "/** v2 */",
   "CREATE TABLE servers (id INTEGER PRIMARY KEY);",
   "",
   "/** v3 */",
   "CREATE TABLE channels (id INTEGER PRIMARY KEY);",
   "CREATE INDEX ch ON channels (id);"]

/-- A script with one block of one statement. -/
def scriptOneBlock : List String :=
  ["/** v1 */", "CREATE TABLE accounts (id INTEGER PRIMARY KEY);"]

/-- A script whose only block has a second statement that the engine `failOn
"BOGUS;"` rejects. -/
def scriptFailing : List String :=
  ["/** v1 */", "CREATE TABLE a (x INT);", "BOGUS;", "CREATE TABLE b (y INT);"]

/-- A script whose final statement is not terminated. -/
def scriptUnterminated : List String :=
  ["/** v1 */", "CREATE TABLE a (x INT);", "CREATE TABLE b (y INT)"]

/-- A script whose first block ends in a statement that is not terminated
before the marker of the second block. -/
def scriptRunOn : List String :=
  ["/** v1 */", "CREATE TABLE a (x INT)", "/** v2 */", "CREATE TABLE b (y INT);"]

/-- An engine that rejects exactly the statement `bad`. -/
def failOn (bad : String) : Engine :=
  fun _ stmt => if stmt = bad then some "syntax error" else none

/-- A store at version `v` with nothing else recorded. -/
def storeAt (v : Int) : Db := ⟨some [v], []⟩

/-- A fresh store: no version table yet. -/
def freshStore : Db := ⟨none, []⟩

/-! ## Entities and the entity store

The entity operations of `db.go` are one-line calls into gorp's `DbMap`
(`Insert`, `Delete`, `Select`, `SelectOne`) on tables that `db/schema.sql`
creates; neither is part of the sources at hand.  `DbMap` is modelled from the
specification (sections 3, 4.2 and 6); whether the SQL engine accepts the text
of a query is a parameter. -/

/-- The struct `Account`. -/
structure Account where
  Id : Int
  Email : String
  Name : String
  PassHash : String
deriving DecidableEq, Repr

/-- The struct `Server`; `Port` is an `int16`, which is stored and read back
without arithmetic. -/
structure Server where
  Id : Int
  Name : String
  Host : String
  Port : Int
  Description : String
deriving DecidableEq, Repr

/-- The error outcomes the specification names for entity operations. -/
inductive DbError where
  | storageError (msg : String)
  | notFound
  | ambiguousResult
deriving DecidableEq, Repr

/-- Modelled from the spec: a table registered with `SetKeys(true, "Id")`
(gorp's table map and the table definitions of `db/schema.sql` are missing).
Its rows in storage order and the last primary key assigned: "primary key
column auto-incrementing", "`Id` is assigned by the store on insert and never
reused after deletion". -/
structure Table (α : Type) where
  rows : List α
  lastId : Nat
deriving Repr

/-- The struct `DataStore` after `Init`: the tables bound to the `DbMap`. -/
structure DataStore where
  accounts : Table Account
  servers : Table Server
deriving Repr

/-- Modelled from the spec: gorp's `DbMap.Insert` on `servers` (missing):
"assigns a fresh primary key to the entity, writes one row".  Returns the
entity with the key written back and the new table. -/
def insertServer (t : Table Server) (srv : Server) : Server × Table Server :=
  let srv1 : Server := ⟨((t.lastId + 1 : Nat) : Int), srv.Name, srv.Host, srv.Port, srv.Description⟩
  (srv1, ⟨t.rows ++ [srv1], t.lastId + 1⟩)

/-- Modelled from the spec: gorp's `DbMap.Delete` on `servers` (missing):
"removes the row matching the entity's primary key", success also when no row
matched. -/
def deleteServer (t : Table Server) (srv : Server) : Table Server :=
  ⟨t.rows.filter (fun row => row.Id != srv.Id), t.lastId⟩

/-- Modelled from the spec: gorp's `DbMap.Insert` on `accounts` (missing):
"assigns a fresh primary key to the entity, writes one row". -/
def insertAccount (t : Table Account) (account : Account) : Account × Table Account :=
  let account1 : Account :=
    ⟨((t.lastId + 1 : Nat) : Int), account.Email, account.Name, account.PassHash⟩
  (account1, ⟨t.rows ++ [account1], t.lastId + 1⟩)

/-- Modelled from the spec: gorp's `DbMap.SelectOne` on `accounts` by email
(missing): "returns exactly one matching row or fails with `NotFound`; fails
with `AmbiguousResult`" when several rows match.  The query text goes to the
SQL engine first; `sqlOk` says whether the engine can prepare it, and a text
it cannot prepare is an error whatever the table holds. -/
def selectOneAccount (sqlOk : String → Bool) (t : Table Account) (query : String)
    (email : String) : Except DbError Account :=
  if sqlOk query then
    match t.rows.filter (fun row => row.Email == email) with
    | [] => .error .notFound
    | [account] => .ok account
    | _ => .error .ambiguousResult
  else .error (.storageError ("cannot prepare: " ++ query))

/-- The method `AddServer`: the error, the server with its `Id` written back
through the pointer, and the store. -/
def AddServer (ds : DataStore) (srv : Server) : Option DbError × Server × DataStore :=
  match insertServer ds.servers srv with
  | (srv1, t) => (none, srv1, ⟨ds.accounts, t⟩)

/-- The method `RemoveServer`. -/
def RemoveServer (ds : DataStore) (srv : Server) : Option DbError × DataStore :=
  (none, ⟨ds.accounts, deleteServer ds.servers srv⟩)

/-- The method `ListServers`: `SELECT * FROM servers`. -/
def ListServers (ds : DataStore) : List Server × Option DbError :=
  (ds.servers.rows, none)

/-- The method `AddAccount`. -/
def AddAccount (ds : DataStore) (account : Account) : Option DbError × Account × DataStore :=
  match insertAccount ds.accounts account with
  | (account1, t) => (none, account1, ⟨t, ds.servers⟩)

/-- The method `FindAccountByLogin`, with the query text of the source: the
zero `Account` and the error when `SelectOne` fails. -/
def FindAccountByLogin (sqlOk : String → Bool) (ds : DataStore) (email : String) :
    Account × Option DbError :=
  match selectOneAccount sqlOk ds.accounts "SELECT * FROM accounts WHERE email := ?" email with
  | .ok account => (account, none)
  | .error err => (⟨0, "", "", ""⟩, some err)

/-- A colon that starts no parameter name: SQLite's tokenizer accepts `:` only
in front of an identifier character and reports any other as an unrecognized
token. -/
def strayColon : List Char → Bool
  | [] => false
  | c :: rest =>
    if c = ':' then
      match rest with
      | [] => true
      | c1 :: _ => !(c1.isAlphanum || c1 = '_') || strayColon rest
    else strayColon rest

/-- A sample of the engine's parser: it prepares any text without a stray
colon. -/
def sqliteTokenizes (query : String) : Bool := !strayColon query.data

/-- A store with empty tables in which `used` keys were handed out before. -/
def emptyStore (used : Nat) : DataStore := ⟨⟨[], used⟩, ⟨[], used⟩⟩

/-- The server of the round-trip example. -/
def freenode : Server := ⟨0, "Freenode", "chat.freenode.net", 6667, ""⟩

/-- The account of the lookup example. -/
def alice : Account := ⟨0, "a@example.com", "Alice", "hash"⟩
/-! ## Lemmas on the scan -/

theorem scanLoop_eq_execAll (engine : Engine) (v : Int) (lines : List String) :
    ∀ (stmt : String) (b : Nat) (d : Db),
      scanLoop engine v lines stmt b d =
        match execAll engine ((pendingFrom v lines stmt b).map Prod.snd) d with
        | .error f => .error f
        | .ok d1 => .ok (b + blocks lines, d1) := by
  induction lines with
  | nil => intro stmt b d; simp [scanLoop, pendingFrom, execAll, blocks]
  | cons line rest ih =>
    intro stmt b d
    have hb : ∀ c : Nat, c + blocks (line :: rest) =
        (if HasPrefix line "/**" then c + 1 else c) + blocks rest := by
      intro c
      by_cases hm : HasPrefix line "/**" = true
      · simp [blocks, isMarker, hm, List.countP_cons]; omega
      · simp [blocks, isMarker, hm, List.countP_cons]
    simp only [scanLoop, pendingFrom]
    by_cases ht : HasSuffix line ";" = true
    · by_cases hv : ((if HasPrefix line "/**" then b + 1 else b : Nat) : Int) > v
      · simp only [ht, hv, if_true, List.map_cons, execAll]
        cases hx : checkErr (d.Exec engine (stmt ++ line)) "Failed to apply schema" d with
        | error f => simp
        | ok d1 => simp only [ih, hb b]
      · simp only [ht, hv, if_true, if_false, ih, hb b]
    · simp only [ht, if_false, ih, hb b]
      simp

/-! ## Lemmas on executing a list of statements -/

theorem execAll_ok (engine : Engine) (todo : List String) :
    ∀ d : Db,
      (∀ i s, todo[i]? = some s → engine (d.applied ++ todo.take i) s = none) →
      execAll engine todo d = .ok ⟨d.schema, d.applied ++ todo⟩ := by
  induction todo with
  | nil => intro d _; simp [execAll]
  | cons s rest ih =>
    intro d h
    have h0 : engine d.applied s = none := by simpa using h 0 s (by simp)
    have hrest : ∀ i t, rest[i]? = some t →
        engine ((d.applied ++ [s]) ++ rest.take i) t = none := by
      intro i t hi
      have := h (i + 1) t (by simpa using hi)
      simpa using this
    simp only [execAll, Db.Exec, h0, checkErr]
    rw [ih ⟨d.schema, d.applied ++ [s]⟩ hrest]
    simp

theorem execAll_error (engine : Engine) (todo : List String) :
    ∀ (d : Db) (k : Nat) (s err : String),
      todo[k]? = some s →
      engine (d.applied ++ todo.take k) s = some err →
      (∀ i t, i < k → todo[i]? = some t → engine (d.applied ++ todo.take i) t = none) →
      execAll engine todo d =
        .error ⟨"Failed to apply schema" ++ ": " ++ err, ⟨d.schema, d.applied ++ todo.take k⟩⟩ := by
  induction todo with
  | nil => intro d k s err hk; simp at hk
  | cons s0 rest ih =>
    intro d k s err hk hfail hok
    cases k with
    | zero =>
      simp at hk
      subst hk
      have h0 : engine d.applied s0 = some err := by simpa using hfail
      simp [execAll, Db.Exec, h0, checkErr]
    | succ k =>
      have h0 : engine d.applied s0 = none := by
        simpa using hok 0 s0 (Nat.succ_pos k) (by simp)
      have hk1 : rest[k]? = some s := by simpa using hk
      have hfail1 : engine ((d.applied ++ [s0]) ++ rest.take k) s = some err := by
        simpa using hfail
      have hok1 : ∀ i t, i < k → rest[i]? = some t →
          engine ((d.applied ++ [s0]) ++ rest.take i) t = none := by
        intro i t hi hit
        have := hok (i + 1) t (Nat.succ_lt_succ hi) (by simpa using hit)
        simpa using this
      simp only [execAll, Db.Exec, h0, checkErr]
      rw [ih ⟨d.schema, d.applied ++ [s0]⟩ k s err hk1 hfail1 hok1]
      simp

theorem execAll_ok_inv (engine : Engine) (todo : List String) :
    ∀ d d1 : Db, execAll engine todo d = .ok d1 →
      d1 = ⟨d.schema, d.applied ++ todo⟩ ∧
      ∀ i s, todo[i]? = some s → engine (d.applied ++ todo.take i) s = none := by
  induction todo with
  | nil =>
    intro d d1 h
    simp [execAll] at h
    subst h
    simp
  | cons s0 rest ih =>
    intro d d1 h
    cases h0 : engine d.applied s0 with
    | some err => simp [execAll, Db.Exec, h0, checkErr] at h
    | none =>
      simp only [execAll, Db.Exec, h0, checkErr] at h
      obtain ⟨h1, h2⟩ := ih ⟨d.schema, d.applied ++ [s0]⟩ d1 h
      refine ⟨by simpa using h1, ?_⟩
      intro i s hi
      cases i with
      | zero =>
        simp at hi
        subst hi
        simpa using h0
      | succ i =>
        have := h2 i s (by simpa using hi)
        simpa using this

theorem execAll_error_inv (engine : Engine) (todo : List String) :
    ∀ (d : Db) (f : Fatal), execAll engine todo d = .error f →
      ∃ k s err, todo[k]? = some s ∧
        engine (d.applied ++ todo.take k) s = some err ∧
        (∀ i t, i < k → todo[i]? = some t → engine (d.applied ++ todo.take i) t = none) ∧
        f = ⟨"Failed to apply schema" ++ ": " ++ err, ⟨d.schema, d.applied ++ todo.take k⟩⟩ := by
  induction todo with
  | nil => intro d f h; simp [execAll] at h
  | cons s0 rest ih =>
    intro d f h
    cases h0 : engine d.applied s0 with
    | some err =>
      simp only [execAll, Db.Exec, h0, checkErr] at h
      refine ⟨0, s0, err, by simp, by simpa using h0, ?_, ?_⟩
      · intro i t hi; omega
      · simp at h
        simp [← h]
    | none =>
      simp only [execAll, Db.Exec, h0, checkErr] at h
      obtain ⟨k, s, err, hk, hfail, hok, hf⟩ := ih ⟨d.schema, d.applied ++ [s0]⟩ f h
      refine ⟨k + 1, s, err, by simpa using hk, by simpa using hfail, ?_, by simpa using hf⟩
      intro i t hi hit
      cases i with
      | zero =>
        simp at hit
        subst hit
        simpa using h0
      | succ i =>
        have := hok i t (by omega) (by simpa using hit)
        simpa using this

/-! ## Lemmas relating the loop's variables to the script -/

theorem blocks_append (xs ys : List String) : blocks (xs ++ ys) = blocks xs + blocks ys := by
  simp [blocks, List.countP_append]

theorem blocks_cons (line : String) (rest : List String) (b : Nat) :
    (if HasPrefix line "/**" then b + 1 else b) + blocks rest = b + blocks (line :: rest) := by
  by_cases hm : HasPrefix line "/**" = true
  · simp [blocks, isMarker, hm, List.countP_cons]; omega
  · simp [blocks, isMarker, hm, List.countP_cons]

theorem stmtAfter_append (xs ys : List String) :
    ∀ stmt, stmtAfter (xs ++ ys) stmt = stmtAfter ys (stmtAfter xs stmt) := by
  induction xs with
  | nil => intro stmt; simp [stmtAfter]
  | cons line rest ih =>
    intro stmt
    by_cases ht : HasSuffix line ";" = true
    · simp [stmtAfter, ht, ih]
    · simp [stmtAfter, ht, ih]

theorem pendingFrom_append (v : Int) (xs ys : List String) :
    ∀ (stmt : String) (b : Nat),
      pendingFrom v (xs ++ ys) stmt b =
        pendingFrom v xs stmt b ++ pendingFrom v ys (stmtAfter xs stmt) (b + blocks xs) := by
  induction xs with
  | nil => intro stmt b; simp [pendingFrom, stmtAfter, blocks]
  | cons line rest ih =>
    intro stmt b
    rw [List.cons_append, ← blocks_cons line rest b]
    simp only [pendingFrom, stmtAfter]
    by_cases ht : HasSuffix line ";" = true
    · by_cases hv : ((if HasPrefix line "/**" then b + 1 else b : Nat) : Int) > v
      · simp only [ht, hv, if_true, ih, List.cons_append]
      · simp only [ht, hv, if_true, if_false, ih]
    · simp only [ht, if_false, ih]
      simp

theorem join_concat (xs : List String) (x : String) :
    String.join (xs ++ [x]) = String.join xs ++ x := by
  simp [String.join, List.foldl_append]

theorem stmtAfter_eq_join (xs : List String) :
    stmtAfter xs "" = String.join (xs.rtakeWhile (fun line => !isTerminator line)) := by
  induction xs using List.reverseRecOn with
  | nil => simp [stmtAfter, String.join]
  | append_singleton init last ih =>
    rw [stmtAfter_append, List.rtakeWhile_concat]
    by_cases ht : HasSuffix last ";" = true
    · simp [stmtAfter, isTerminator, ht, String.join]
    · simp [stmtAfter, isTerminator, ht, ih, join_concat]

theorem executedSpec_concat (v : Int) (init : List String) (last : String) :
    executedSpec v (init ++ [last]) =
      executedSpec v init ++
        (if HasSuffix last ";" = true ∧ ((blocks (init ++ [last]) : Nat) : Int) > v then
          [(blocks (init ++ [last]),
            String.join (init.rtakeWhile (fun line => !isTerminator line) ++ [last]))]
        else []) := by
  have hlen : (init ++ [last]).length = init.length + 1 := by simp
  unfold executedSpec
  rw [hlen, List.range_succ, List.filter_append, List.map_append]
  congr 1
  · have hcongr : ∀ i ∈ List.range init.length,
        terminatedAt (init ++ [last]) i = terminatedAt init i ∧
        blockCounterAt (init ++ [last]) i = blockCounterAt init i ∧
        statementAt (init ++ [last]) i = statementAt init i := by
      intro i hi
      have hi : i < init.length := List.mem_range.mp hi
      have hget : (init ++ [last])[i]? = init[i]? := List.getElem?_append_left hi
      have htake1 : (init ++ [last]).take (i + 1) = init.take (i + 1) :=
        List.take_append_of_le_length (by omega)
      have htake : (init ++ [last]).take i = init.take i :=
        List.take_append_of_le_length (by omega)
      simp [terminatedAt, blockCounterAt, statementAt, hget, htake1, htake]
    have hfilter : (List.range init.length).filter
          (fun i => terminatedAt (init ++ [last]) i &&
            decide ((blockCounterAt (init ++ [last]) i : Int) > v)) =
        (List.range init.length).filter
          (fun i => terminatedAt init i && decide ((blockCounterAt init i : Int) > v)) := by
      apply List.filter_congr
      intro i hi
      obtain ⟨h1, h2, _⟩ := hcongr i hi
      rw [h1, h2]
    rw [hfilter]
    apply List.map_congr_left
    intro i hi
    have hi : i ∈ List.range init.length := (List.mem_filter.mp hi).1
    obtain ⟨_, h2, h3⟩ := hcongr i hi
    rw [h2, h3]
  · have hget : (init ++ [last])[init.length]? = some last := by simp
    have htake1 : (init ++ [last]).take (init.length + 1) = init ++ [last] := by
      simp
    have htake : (init ++ [last]).take init.length = init := by simp
    by_cases ht : HasSuffix last ";" = true
    · by_cases hv : ((blocks (init ++ [last]) : Nat) : Int) > v
      · simp [terminatedAt, blockCounterAt, statementAt, hget, htake1, htake, ht, hv]
      · simp [terminatedAt, blockCounterAt, statementAt, hget, htake1, htake, ht, hv]
    · simp [terminatedAt, blockCounterAt, statementAt, hget, htake1, htake, ht]

theorem pendingFrom_eq_executedSpec (v : Int) (script : List String) :
    pendingFrom v script "" 0 = executedSpec v script := by
  induction script using List.reverseRecOn with
  | nil => simp [pendingFrom, executedSpec]
  | append_singleton init last ih =>
    rw [pendingFrom_append, executedSpec_concat, ih, stmtAfter_eq_join]
    congr 1
    have hb : (if HasPrefix last "/**" then 0 + blocks init + 1 else 0 + blocks init) =
        blocks (init ++ [last]) := by
      have := blocks_cons last [] (0 + blocks init)
      simp [blocks_append] at this ⊢
      by_cases hm : HasPrefix last "/**" = true
      · simp [hm, blocks, isMarker]
      · simp [hm, blocks, isMarker]
    simp only [pendingFrom, hb, join_concat]
    by_cases ht : HasSuffix last ";" = true
    · by_cases hv : ((blocks (init ++ [last]) : Nat) : Int) > v
      · simp [ht, hv]
      · simp [ht, hv]
    · simp [ht]

/-! ## Lemmas on `updateSchema` -/

theorem schemaVersion_db (d : Db) : (schemaVersion d).2 = createSchemaTable d := by
  unfold schemaVersion
  cases h : selectVersion (createSchemaTable d) <;> simp [h]

theorem schemaVersion_single (v : Int) (applied : List String) :
    schemaVersion ⟨some [v], applied⟩ = (v, ⟨some [v], applied⟩) := by
  simp [schemaVersion, createSchemaTable, selectVersion]

theorem schemaVersion_createSchemaTable (d : Db) :
    (schemaVersion (createSchemaTable d)).1 = (schemaVersion d).1 := by
  simp [schemaVersion, createSchemaTable, selectVersion]

theorem updateSchema_eq (engine : Engine) (script : List String) (d : Db) :
    updateSchema engine script d =
      match execAll engine (toExecute script d) (createSchemaTable d) with
      | .error f => .error f
      | .ok d1 => .ok (insertSchema (deleteSchema d1) (blocks script : Int)) := by
  have hdb := schemaVersion_db d
  unfold updateSchema toExecute
  rw [← pendingFrom_eq_executedSpec]
  cases hsv : schemaVersion d with
  | mk v d0 =>
    rw [hsv] at hdb
    simp only at hdb
    subst hdb
    simp only [scanLoop_eq_execAll]
    cases execAll engine ((pendingFrom v script "" 0).map Prod.snd) (createSchemaTable d) with
    | error f => rfl
    | ok d1 => simp

theorem blockCounterAt_le (script : List String) (i : Nat) :
    blockCounterAt script i ≤ blocks script := by
  unfold blockCounterAt blocks
  exact List.Sublist.countP_le _ (List.take_sublist _ _)

theorem executedSpec_eq_nil (v : Int) (script : List String) (h : (blocks script : Int) ≤ v) :
    executedSpec v script = [] := by
  unfold executedSpec
  rw [List.map_eq_nil_iff, List.filter_eq_nil_iff]
  intro i _
  have := blockCounterAt_le script i
  have hlt : ¬ ((blockCounterAt script i : Int) > v) := by omega
  simp [hlt]

theorem executedSpec_bounds (v : Int) (script : List String) :
    ∀ p ∈ executedSpec v script, v < (p.1 : Int) ∧ p.1 ≤ blocks script := by
  intro p hp
  unfold executedSpec at hp
  rw [List.mem_map] at hp
  obtain ⟨i, hi, rfl⟩ := hp
  rw [List.mem_filter] at hi
  have h2 := hi.2
  simp only [Bool.and_eq_true, decide_eq_true_eq] at h2
  exact ⟨h2.2, blockCounterAt_le script i⟩

theorem pendingFrom_unterminated (v : Int) (tail : List String)
    (h : ∀ l ∈ tail, HasSuffix l ";" = false) :
    ∀ (stmt : String) (b : Nat), pendingFrom v tail stmt b = [] := by
  induction tail with
  | nil => intro stmt b; simp [pendingFrom]
  | cons line rest ih =>
    intro stmt b
    have hl : HasSuffix line ";" = false := h line (by simp)
    have hr : ∀ l ∈ rest, HasSuffix l ";" = false := fun l hl => h l (by simp [hl])
    simp [pendingFrom, hl, ih hr]

theorem executedSpec_append_unterminated (v : Int) (script tail : List String)
    (h : ∀ l ∈ tail, HasSuffix l ";" = false) :
    executedSpec v (script ++ tail) = executedSpec v script := by
  rw [← pendingFrom_eq_executedSpec, ← pendingFrom_eq_executedSpec, pendingFrom_append,
    pendingFrom_unterminated v tail h]
  simp

theorem updateSchema_ok_inv (engine : Engine) (script : List String) (d d1 : Db)
    (h : updateSchema engine script d = .ok d1) :
    d1 = ⟨some [(blocks script : Int)], d.applied ++ toExecute script d⟩ := by
  rw [updateSchema_eq] at h
  cases hx : execAll engine (toExecute script d) (createSchemaTable d) with
  | error f => rw [hx] at h; simp at h
  | ok d2 =>
    rw [hx] at h
    have h2 := (execAll_ok_inv engine _ _ _ hx).1
    simp only [Except.ok.injEq] at h
    rw [← h, h2]
    simp [insertSchema, deleteSchema, createSchemaTable]

theorem updateSchema_at_version (engine : Engine) (script : List String) (d : Db)
    (h : (blocks script : Int) ≤ (schemaVersion d).1) :
    updateSchema engine script d = .ok ⟨some [(blocks script : Int)], d.applied⟩ := by
  rw [updateSchema_eq]
  have hnil : toExecute script d = [] := by
    simp [toExecute, executedSpec_eq_nil _ _ h]
  rw [hnil]
  simp [execAll, insertSchema, deleteSchema, createSchemaTable]

theorem schemaVersion_rows (d d2 : Db) (h : selectVersion d = selectVersion d2) :
    (schemaVersion d).1 = (schemaVersion d2).1 := by
  have h1 : selectVersion (createSchemaTable d) = selectVersion d := by
    simp [selectVersion, createSchemaTable]
  have h2 : selectVersion (createSchemaTable d2) = selectVersion d2 := by
    simp [selectVersion, createSchemaTable]
  unfold schemaVersion
  simp only [h1, h2, ← h]
  cases selectVersion d <;> rfl

theorem updateSchema_error_inv (engine : Engine) (script : List String) (d : Db) (f : Fatal)
    (h : updateSchema engine script d = .error f) :
    ∃ k s err, (toExecute script d)[k]? = some s ∧
      engine (d.applied ++ (toExecute script d).take k) s = some err ∧
      (∀ i t, i < k → (toExecute script d)[i]? = some t →
        engine (d.applied ++ (toExecute script d).take i) t = none) ∧
      f = ⟨"Failed to apply schema" ++ ": " ++ err,
        ⟨some (d.schema.getD []), d.applied ++ (toExecute script d).take k⟩⟩ := by
  rw [updateSchema_eq] at h
  cases hx : execAll engine (toExecute script d) (createSchemaTable d) with
  | ok d2 => rw [hx] at h; simp at h
  | error f2 =>
    rw [hx] at h
    simp only [Except.error.injEq] at h
    subst h
    obtain ⟨k, s, err, hk, hfail, hok, hf⟩ := execAll_error_inv engine _ _ _ hx
    exact ⟨k, s, err, hk, hfail, hok, hf⟩

/-! ## Lemmas on the scan with provenance -/

theorem append_eq_empty (a b : String) (h : a ++ b = "") : a = "" ∧ b = "" := by
  have hd : (a ++ b).data = [] := by rw [h]
  rw [String.data_append, List.append_eq_nil] at hd
  exact ⟨String.ext hd.1, String.ext hd.2⟩

theorem join_eq_empty (xs : List String) (h : String.join xs = "") : ∀ x ∈ xs, x = "" := by
  induction xs using List.reverseRecOn with
  | nil => intro x hx; simp at hx
  | append_singleton init last ih =>
    rw [join_concat] at h
    obtain ⟨h1, h2⟩ := append_eq_empty _ _ h
    intro x hx
    rw [List.mem_append] at hx
    cases hx with
    | inl hx => exact ih h1 x hx
    | inr hx =>
      have : x = last := by simpa using hx
      rw [this, h2]

theorem textOf_concat (acc : List (Nat × String)) (b : Nat) (line : String) :
    textOf (acc ++ [(b, line)]) = textOf acc ++ line := by
  simp [textOf, join_concat]

theorem tracedFrom_text (v : Int) (lines : List String) :
    ∀ (acc : List (Nat × String)) (b : Nat),
      (tracedFrom v lines acc b).map textOf =
        (pendingFrom v lines (textOf acc) b).map Prod.snd := by
  induction lines with
  | nil => intro acc b; simp [tracedFrom, pendingFrom]
  | cons line rest ih =>
    intro acc b
    have hnil : textOf [] = "" := by simp [textOf, String.join]
    simp only [tracedFrom, pendingFrom]
    by_cases ht : HasSuffix line ";" = true
    · by_cases hv : ((if HasPrefix line "/**" then b + 1 else b : Nat) : Int) > v
      · simp only [ht, hv, if_true, List.map_cons, ih, hnil, textOf_concat]
      · simp only [ht, hv, if_true, if_false, ih, hnil]
    · simp only [ht, Bool.false_eq_true, if_false]
      rw [ih, textOf_concat]

theorem tracedFrom_blocks (v : Int) (lines : List String) :
    ∀ (acc : List (Nat × String)) (b : Nat),
      (∀ p ∈ acc, p.2 ≠ "" → p.1 = b) →
      (∀ pre line post, lines = pre ++ line :: post → HasPrefix line "/**" = true →
        stmtAfter pre (textOf acc) = "") →
      ∀ seg ∈ tracedFrom v lines acc b, ∀ p ∈ seg, p.2 ≠ "" → v < (p.1 : Int) := by
  induction lines with
  | nil => intro acc b _ _ seg hseg; simp [tracedFrom] at hseg
  | cons line rest ih =>
    intro acc b hacc hclean seg hseg
    have hnil : textOf [] = "" := by simp [textOf, String.join]
    have hacc1 : ∀ p ∈ acc ++ [((if HasPrefix line "/**" then b + 1 else b), line)],
        p.2 ≠ "" → p.1 = (if HasPrefix line "/**" then b + 1 else b) := by
      intro p hp hne
      rw [List.mem_append] at hp
      cases hp with
      | inr hp =>
        have : p = ((if HasPrefix line "/**" then b + 1 else b), line) := by simpa using hp
        rw [this]
      | inl hp =>
        by_cases hm : HasPrefix line "/**" = true
        · have hempty : textOf acc = "" := by
            have := hclean [] line rest (by simp) hm
            simpa [stmtAfter] using this
          have hp2 : p.2 = "" :=
            join_eq_empty _ hempty p.2 (List.mem_map_of_mem Prod.snd hp)
          exact absurd hp2 hne
        · simp only [hm, Bool.false_eq_true, if_false]
          exact hacc p hp hne
    simp only [tracedFrom] at hseg
    by_cases ht : HasSuffix line ";" = true
    · have hclean1 : ∀ pre l post, rest = pre ++ l :: post → HasPrefix l "/**" = true →
          stmtAfter pre (textOf []) = "" := by
        intro pre l post hrest hm
        have := hclean (line :: pre) l post (by simp [hrest]) hm
        simpa [stmtAfter, ht, hnil] using this
      by_cases hv : ((if HasPrefix line "/**" then b + 1 else b : Nat) : Int) > v
      · simp only [ht, hv, if_true, List.mem_cons] at hseg
        cases hseg with
        | inl hseg =>
          intro p hp hne
          rw [hseg] at hp
          rw [hacc1 p hp hne]
          exact hv
        | inr hseg => exact ih [] _ (by simp) hclean1 seg hseg
      · simp only [ht, hv, if_true, if_false] at hseg
        exact ih [] _ (by simp) hclean1 seg hseg
    · simp only [ht, if_false] at hseg
      have hclean1 : ∀ pre l post, rest = pre ++ l :: post → HasPrefix l "/**" = true →
          stmtAfter pre
            (textOf (acc ++ [((if HasPrefix line "/**" then b + 1 else b), line)])) = "" := by
        intro pre l post hrest hm
        have := hclean (line :: pre) l post (by simp [hrest]) hm
        simpa [stmtAfter, ht, textOf_concat] using this
      exact ih _ _ hacc1 hclean1 seg hseg

theorem tracedFrom_tags (v : Int) (script : List String) (lines : List String) :
    ∀ (done : List String) (acc : List (Nat × String)),
      script = done ++ lines →
      (∀ p ∈ acc, ∃ i, script[i]? = some p.2 ∧ blockCounterAt script i = p.1) →
      ∀ seg ∈ tracedFrom v lines acc (blocks done), ∀ p ∈ seg,
        ∃ i, script[i]? = some p.2 ∧ blockCounterAt script i = p.1 := by
  induction lines with
  | nil => intro done acc _ _ seg hseg; simp [tracedFrom] at hseg
  | cons line rest ih =>
    intro done acc hscript hacc seg hseg
    have hb : (if HasPrefix line "/**" then blocks done + 1 else blocks done) =
        blocks (done ++ [line]) := by
      rw [blocks_append]
      by_cases hm : HasPrefix line "/**" = true
      · simp [hm, blocks, isMarker]
      · simp [hm, blocks, isMarker]
    have hscript1 : script = (done ++ [line]) ++ rest := by simp [hscript]
    have hnew : ∃ i, script[i]? = some line ∧
        blockCounterAt script i = blocks (done ++ [line]) := by
      refine ⟨done.length, ?_, ?_⟩
      · rw [hscript, List.getElem?_append_right (le_refl _)]
        simp
      · unfold blockCounterAt
        rw [hscript1]
        have hlen : (done ++ [line]).length = done.length + 1 := by simp
        rw [← hlen, List.take_left]
    have hacc1 : ∀ p ∈ acc ++ [(blocks (done ++ [line]), line)],
        ∃ i, script[i]? = some p.2 ∧ blockCounterAt script i = p.1 := by
      intro p hp
      rw [List.mem_append] at hp
      cases hp with
      | inl hp => exact hacc p hp
      | inr hp =>
        have : p = (blocks (done ++ [line]), line) := by simpa using hp
        rw [this]
        exact hnew
    simp only [tracedFrom, hb] at hseg
    by_cases ht : HasSuffix line ";" = true
    · by_cases hv : ((blocks (done ++ [line]) : Nat) : Int) > v
      · simp only [ht, hv, if_true, List.mem_cons] at hseg
        cases hseg with
        | inl hseg =>
          intro p hp
          rw [hseg] at hp
          exact hacc1 p hp
        | inr hseg => exact ih (done ++ [line]) [] hscript1 (by simp) seg hseg
      · simp only [ht, hv, if_true, if_false] at hseg
        exact ih (done ++ [line]) [] hscript1 (by simp) seg hseg
    · simp only [ht, if_false] at hseg
      exact ih (done ++ [line]) _ hscript1 hacc1 seg hseg

theorem startups_versions (engine : Engine) (scripts : List (List String)) :
    ∀ (d d2 : Db) (versions : List Int),
      startups engine scripts d = .ok (versions, d2) →
      versions = scripts.map (fun script => (blocks script : Int)) := by
  induction scripts with
  | nil =>
    intro d d2 versions h
    simp [startups] at h
    simp [h.1]
  | cons script rest ih =>
    intro d d2 versions h
    simp only [startups] at h
    cases h1 : updateSchema engine script d with
    | error f => rw [h1] at h; simp at h
    | ok d1 =>
      rw [h1] at h
      simp only at h
      cases h2 : startups engine rest d1 with
      | error f => rw [h2] at h; simp at h
      | ok r =>
        obtain ⟨vs, d3⟩ := r
        rw [h2] at h
        simp only [Except.ok.injEq, Prod.mk.injEq] at h
        have hvs := ih d1 d3 vs h2
        have hd1 := updateSchema_ok_inv engine script d d1 h1
        have hver : (schemaVersion d1).1 = (blocks script : Int) := by
          rw [hd1, schemaVersion_single]
        rw [← h.1, hver, hvs]
        simp

/-! ## Claims -/

/-- C1: when none of the selected statements fails, `updateSchema` completes
and has applied exactly the statements whose terminating line is reached while
the block counter exceeds the stored version, in script order; every such
statement carries a block number above the stored version and at most the
number of blocks, so at version 1 with three blocks only blocks 2 and 3 run. -/
theorem updateSchema_executes_newer_statements (engine : Engine) (script : List String) (d : Db)
    (hno : ∀ i s, (toExecute script d)[i]? = some s →
      engine (d.applied ++ (toExecute script d).take i) s = none) :
    updateSchema engine script d =
        .ok ⟨some [(blocks script : Int)],
          d.applied ++ (executedSpec (schemaVersion d).1 script).map Prod.snd⟩ ∧
      ∀ p ∈ executedSpec (schemaVersion d).1 script,
        (schemaVersion d).1 < (p.1 : Int) ∧ p.1 ≤ blocks script := by
  refine ⟨?_, executedSpec_bounds _ _⟩
  rw [updateSchema_eq, execAll_ok engine (toExecute script d) (createSchemaTable d) hno]
  simp [insertSchema, deleteSchema, createSchemaTable, toExecute]

/-- C1 at a store of version 1 and the three-block script: blocks 2 and 3 run. -/
theorem updateSchema_executes_newer_statements_witness :
    updateSchema acceptAll scriptThreeBlocks (storeAt 1) =
      .ok ⟨some [3],
        ["/** v2 */CREATE TABLE servers (id INTEGER PRIMARY KEY);",
         "/** v3 */CREATE TABLE channels (id INTEGER PRIMARY KEY);",
         "CREATE INDEX ch ON channels (id);"]⟩ :=
  (updateSchema_executes_newer_statements acceptAll scriptThreeBlocks (storeAt 1)
    (fun _ _ _ => rfl)).1.trans rfl

/-- C2: migration is idempotent.  On a store whose version already equals the
number of blocks of the script, `updateSchema` applies no statement and leaves
the version at that number; and after any successful run, a second run with the
same script succeeds, applies nothing and leaves the store, hence the version,
as the first run left it. -/
theorem updateSchema_idempotent (engine : Engine) (script : List String) (d d1 : Db) :
    ((schemaVersion d).1 = (blocks script : Int) →
        updateSchema engine script d = .ok ⟨some [(blocks script : Int)], d.applied⟩ ∧
        (schemaVersion ⟨some [(blocks script : Int)], d.applied⟩).1 = (blocks script : Int)) ∧
    (updateSchema engine script d = .ok d1 →
        updateSchema engine script d1 = .ok d1 ∧
        (schemaVersion d1).1 = (blocks script : Int)) := by
  constructor
  · intro hv
    exact ⟨updateSchema_at_version engine script d (le_of_eq hv.symm),
      by rw [schemaVersion_single]⟩
  · intro h
    have hd1 := updateSchema_ok_inv engine script d d1 h
    have hver : (schemaVersion d1).1 = (blocks script : Int) := by
      rw [hd1, schemaVersion_single]
    refine ⟨?_, hver⟩
    have := updateSchema_at_version engine script d1 (le_of_eq hver.symm)
    rw [this]
    rw [hd1]

/-- C2 on the three-block script: a store at version 3 is left alone, and a
second run after migrating a fresh store changes nothing. -/
theorem updateSchema_idempotent_witness :
    (updateSchema acceptAll scriptThreeBlocks (storeAt 3) = .ok (storeAt 3) ∧
      (schemaVersion (storeAt 3)).1 = 3) ∧
    ∃ d1, updateSchema acceptAll scriptThreeBlocks freshStore = .ok d1 ∧
      updateSchema acceptAll scriptThreeBlocks d1 = .ok d1 ∧ (schemaVersion d1).1 = 3 :=
  ⟨(updateSchema_idempotent acceptAll scriptThreeBlocks (storeAt 3) (storeAt 3)).1 rfl,
   ⟨_, rfl, (updateSchema_idempotent acceptAll scriptThreeBlocks freshStore _).2 rfl⟩⟩

/-- C7: after every run of `updateSchema` that ends without a failure the
version table holds exactly one row, the number of lines of the script that
begin with the block marker, whatever it held before; `schemaVersion` then
returns that number; and `schemaVersion` returns 0 when the table is empty or
absent. -/
theorem updateSchema_single_version_row (engine : Engine) (script : List String) (d d1 : Db)
    (h : updateSchema engine script d = .ok d1) :
    d1.schema = some [((script.countP (fun line => HasPrefix line "/**") : Nat) : Int)] ∧
    (schemaVersion d1).1 = ((script.countP (fun line => HasPrefix line "/**") : Nat) : Int) ∧
    (∀ applied, (schemaVersion ⟨some [], applied⟩).1 = 0 ∧
      (schemaVersion ⟨none, applied⟩).1 = 0) := by
  have hd1 := updateSchema_ok_inv engine script d d1 h
  refine ⟨by rw [hd1]; rfl, ?_, ?_⟩
  · rw [hd1, schemaVersion_single]; rfl
  · intro applied
    simp [schemaVersion, createSchemaTable, selectVersion]

/-- C7 on a version table holding two stale rows: one row, 3, is left. -/
theorem updateSchema_single_version_row_witness :
    updateSchema acceptAll scriptThreeBlocks ⟨some [1, 1], []⟩ =
      .ok ⟨some [3],
        ["/** v2 */CREATE TABLE servers (id INTEGER PRIMARY KEY);",
         "/** v3 */CREATE TABLE channels (id INTEGER PRIMARY KEY);",
         "CREATE INDEX ch ON channels (id);"]⟩ ∧
    (schemaVersion ⟨some [3],
        ["/** v2 */CREATE TABLE servers (id INTEGER PRIMARY KEY);",
         "/** v3 */CREATE TABLE channels (id INTEGER PRIMARY KEY);",
         "CREATE INDEX ch ON channels (id);"]⟩).1 = 3 :=
  ⟨rfl, (updateSchema_single_version_row acceptAll scriptThreeBlocks ⟨some [1, 1], []⟩ _
    rfl).2.1⟩

/-- C3, counterexample: on a store at version 3, a run with the one-block
script succeeds and leaves the stored version at 1, below 3. -/
theorem updateSchema_lowers_version :
    (schemaVersion (storeAt 3)).1 = 3 ∧
    updateSchema acceptAll scriptOneBlock (storeAt 3) = .ok (storeAt 1) ∧
    (schemaVersion (storeAt 1)).1 = 1 ∧
    ¬ ((schemaVersion (storeAt 3)).1 ≤ (schemaVersion (storeAt 1)).1) := by
  refine ⟨rfl, rfl, rfl, ?_⟩
  decide

/-- C3 as amended: a successful run always replaces the version row by the
final block counter, whatever the stored version was; so the version after the
run is at least the version before it exactly when the script has at least
that many block markers.  Over successive successful runs the stored versions
are the block counts of the scripts, so they never decrease exactly when those
counts, starting from the stored version, never decrease. -/
theorem updateSchema_version_after (engine : Engine) (script : List String) (d d1 : Db)
    (h : updateSchema engine script d = .ok d1) :
    d1.schema = some [(blocks script : Int)] ∧
    (schemaVersion d1).1 = (blocks script : Int) ∧
    ((schemaVersion d).1 ≤ (schemaVersion d1).1 ↔
      (schemaVersion d).1 ≤ (blocks script : Int)) ∧
    ∀ (scripts : List (List String)) (versions : List Int) (d2 : Db),
      startups engine scripts d = .ok (versions, d2) →
      versions = scripts.map (fun s => (blocks s : Int)) ∧
      (List.Chain (fun a b => a ≤ b) (schemaVersion d).1 versions ↔
        List.Chain (fun a b => a ≤ b) (schemaVersion d).1
          (scripts.map (fun s => (blocks s : Int)))) := by
  have hd1 := updateSchema_ok_inv engine script d d1 h
  have hver : (schemaVersion d1).1 = (blocks script : Int) := by
    rw [hd1, schemaVersion_single]
  refine ⟨by rw [hd1], hver, by rw [hver], ?_⟩
  intro scripts versions d2 hs
  have hvs := startups_versions engine scripts d d2 versions hs
  exact ⟨hvs, by rw [hvs]⟩

/-- C3 as amended, at version 1: with the three-block script the version
becomes 3; over the startups with the three-block, the one-block and again
the three-block script the versions stored are 3, 1, 3. -/
theorem updateSchema_version_after_witness :
    (∃ d1, updateSchema acceptAll scriptThreeBlocks (storeAt 1) = .ok d1 ∧
      d1.schema = some [3] ∧ (schemaVersion d1).1 = 3 ∧
      (schemaVersion (storeAt 1)).1 ≤ (schemaVersion d1).1) ∧
    ∃ d2, startups acceptAll [scriptThreeBlocks, scriptOneBlock, scriptThreeBlocks]
        (storeAt 1) = .ok ([3, 1, 3], d2) ∧
      ¬ List.Chain (fun a b => a ≤ b) (schemaVersion (storeAt 1)).1 [3, 1, 3] :=
  have h := updateSchema_version_after acceptAll scriptThreeBlocks (storeAt 1) _ rfl
  ⟨⟨_, rfl, h.1, h.2.1, h.2.2.1.mpr (by decide)⟩,
   ⟨_, rfl, fun hc => by
      have hc1 := (h.2.2.2 [scriptThreeBlocks, scriptOneBlock, scriptThreeBlocks] [3, 1, 3] _
        rfl).2.mp hc
      have hv : (schemaVersion (storeAt 1)).1 = 1 := rfl
      have h3 : ((blocks scriptThreeBlocks : Nat) : Int) = 3 := rfl
      have h1 : ((blocks scriptOneBlock : Nat) : Int) = 1 := rfl
      simp only [List.map_cons, List.map_nil, hv, h3, h1, List.chain_cons] at hc1
      omega⟩⟩

/-- C10: when the statement at position `k` of the statements to execute is
the first one the engine rejects, `updateSchema` ends in the fatal error of
`checkErr`; the store then holds exactly the statements before position `k` on
top of what it held, so neither the rejected statement nor any later one is
applied; the rows of the version table are those from before the run, and the
stored version is unchanged. -/
theorem updateSchema_fatal_on_failure (engine : Engine) (script : List String) (d : Db)
    (k : Nat) (s err : String)
    (hk : (toExecute script d)[k]? = some s)
    (hfail : engine (d.applied ++ (toExecute script d).take k) s = some err)
    (hok : ∀ i t, i < k → (toExecute script d)[i]? = some t →
      engine (d.applied ++ (toExecute script d).take i) t = none) :
    updateSchema engine script d =
        .error ⟨"Failed to apply schema: " ++ err,
          ⟨some (d.schema.getD []), d.applied ++ (toExecute script d).take k⟩⟩ ∧
      selectVersion ⟨some (d.schema.getD []), d.applied ++ (toExecute script d).take k⟩ =
        selectVersion d ∧
      (schemaVersion ⟨some (d.schema.getD []), d.applied ++ (toExecute script d).take k⟩).1 =
        (schemaVersion d).1 := by
  refine ⟨?_, by simp [selectVersion], schemaVersion_rows _ _ (by simp [selectVersion])⟩
  rw [updateSchema_eq,
    execAll_error engine (toExecute script d) (createSchemaTable d) k s err hk hfail hok]
  simp [createSchemaTable]

/-- C10 on the failing script at a fresh store: the second statement is
rejected, the first stays applied, the fourth line is never executed and the
version table, created by the run, is still empty. -/
theorem updateSchema_fatal_on_failure_witness :
    updateSchema (failOn "BOGUS;") scriptFailing freshStore =
      .error ⟨"Failed to apply schema: syntax error",
        ⟨some [], ["/** v1 */CREATE TABLE a (x INT);"]⟩⟩ ∧
    (schemaVersion ⟨some [], ["/** v1 */CREATE TABLE a (x INT);"]⟩).1 =
      (schemaVersion freshStore).1 :=
  have h := updateSchema_fatal_on_failure (failOn "BOGUS;") scriptFailing freshStore 1
    "BOGUS;" "syntax error" rfl rfl
    (fun i t hi ht => by
      have hi0 : i = 0 := by omega
      subst hi0
      have ht0 : t = "/** v1 */CREATE TABLE a (x INT);" := by
        have h0 : (toExecute scriptFailing freshStore)[0]? =
          some "/** v1 */CREATE TABLE a (x INT);" := rfl
        rw [h0] at ht
        exact (Option.some.inj ht).symm
      subst ht0
      rfl)
  ⟨h.1.trans rfl, h.2.2⟩

/-- C5, counterexample: the script ends in the non-empty unterminated text
`CREATE TABLE b (y INT)`, yet the run on a fresh store ends without any fatal
error and advances the stored version from 0 to 1. -/
theorem updateSchema_accepts_unterminated :
    stmtAfter scriptUnterminated "" = "CREATE TABLE b (y INT)" ∧
    (schemaVersion freshStore).1 = 0 ∧
    updateSchema acceptAll scriptUnterminated freshStore =
      .ok ⟨some [1], ["/** v1 */CREATE TABLE a (x INT);"]⟩ ∧
    (schemaVersion ⟨some [1], ["/** v1 */CREATE TABLE a (x INT);"]⟩).1 = 1 :=
  ⟨rfl, rfl, rfl, rfl⟩

/-- C5 as amended: trailing lines none of which ends in `;` are dropped
silently.  The statements handed to the store are those of the script without
the trailing lines, a failure can only come from one of those, and a run that
succeeds stores the block counter of the whole script, trailing lines
included. -/
theorem updateSchema_drops_unterminated_tail (engine : Engine) (script tail : List String)
    (d : Db) (htail : ∀ l ∈ tail, HasSuffix l ";" = false) :
    toExecute (script ++ tail) d = toExecute script d ∧
    updateSchema engine (script ++ tail) d =
      match updateSchema engine script d with
      | .error f => .error f
      | .ok d1 => .ok ⟨some [(blocks (script ++ tail) : Int)], d1.applied⟩ := by
  have hexec : toExecute (script ++ tail) d = toExecute script d := by
    simp [toExecute, executedSpec_append_unterminated _ _ _ htail]
  refine ⟨hexec, ?_⟩
  rw [updateSchema_eq, updateSchema_eq, hexec]
  cases hx : execAll engine (toExecute script d) (createSchemaTable d) with
  | error f => rfl
  | ok d2 => simp [insertSchema, deleteSchema]

/-- C5 as amended, on the unterminated script split before its last line. -/
theorem updateSchema_drops_unterminated_tail_witness :
    toExecute (["/** v1 */", "CREATE TABLE a (x INT);"] ++ ["CREATE TABLE b (y INT)"])
        freshStore = ["/** v1 */CREATE TABLE a (x INT);"] ∧
    updateSchema acceptAll
        (["/** v1 */", "CREATE TABLE a (x INT);"] ++ ["CREATE TABLE b (y INT)"]) freshStore =
      .ok ⟨some [1], ["/** v1 */CREATE TABLE a (x INT);"]⟩ :=
  have h := updateSchema_drops_unterminated_tail acceptAll
    ["/** v1 */", "CREATE TABLE a (x INT);"] ["CREATE TABLE b (y INT)"] freshStore
    (fun l hl => by
      have hl1 : l = "CREATE TABLE b (y INT)" := by simpa using hl
      subst hl1
      rfl)
  ⟨h.1.trans rfl, h.2.trans rfl⟩

/-- C6, counterexample: all statements of the failing script belong to block 1;
the second is rejected, the run is fatal, and the first statement of block 1
remains applied while the third never runs: block 1 is left half applied. -/
theorem updateSchema_block_not_atomic :
    executedSpec 0 scriptFailing =
      [(1, "/** v1 */CREATE TABLE a (x INT);"), (1, "BOGUS;"), (1, "CREATE TABLE b (y INT);")] ∧
    updateSchema (failOn "BOGUS;") scriptFailing freshStore =
      .error ⟨"Failed to apply schema: syntax error",
        ⟨some [], ["/** v1 */CREATE TABLE a (x INT);"]⟩⟩ :=
  ⟨rfl, rfl⟩

/-- C6 as amended: statements are applied one by one with no rollback.  When
`updateSchema` ends in a fatal error, some statement at a position `k` of the
statements to execute, in a block `n` above the stored version, was rejected;
the store then holds exactly the statements before position `k` on top of what
it held, so every earlier statement, those of block `n` included, remains
applied, and the rows of the version table are those from before the run. -/
theorem updateSchema_failure_keeps_earlier_statements (engine : Engine) (script : List String)
    (d : Db) (f : Fatal) (h : updateSchema engine script d = .error f) :
    ∃ (k n : Nat) (s err : String),
      (executedSpec (schemaVersion d).1 script)[k]? = some (n, s) ∧
      (schemaVersion d).1 < (n : Int) ∧
      engine (d.applied ++ ((executedSpec (schemaVersion d).1 script).take k).map Prod.snd) s =
        some err ∧
      f.db.applied =
        d.applied ++ ((executedSpec (schemaVersion d).1 script).take k).map Prod.snd ∧
      (∀ p ∈ (executedSpec (schemaVersion d).1 script).take k, p.2 ∈ f.db.applied) ∧
      selectVersion f.db = selectVersion d := by
  obtain ⟨k, s, err, hk, hfail, _, hf⟩ := updateSchema_error_inv engine script d f h
  unfold toExecute at hk hfail hf
  rw [List.getElem?_map] at hk
  cases hp : (executedSpec (schemaVersion d).1 script)[k]? with
  | none => rw [hp] at hk; simp at hk
  | some p =>
    rw [hp] at hk
    simp only [Option.map_some', Option.some.injEq] at hk
    have hmem : p ∈ executedSpec (schemaVersion d).1 script := List.getElem?_mem hp
    have hb := (executedSpec_bounds _ _ p hmem).1
    refine ⟨k, p.1, s, err, by rw [← hk]; exact hp, hb, ?_, ?_, ?_, ?_⟩
    · rw [List.map_take]; exact hfail
    · rw [hf, List.map_take]
    · intro q hq
      rw [hf]
      simp only [List.mem_append]
      right
      rw [← List.map_take]
      exact List.mem_map_of_mem Prod.snd hq
    · rw [hf]; simp [selectVersion]

/-- C6 as amended, on the failing script at a fresh store. -/
theorem updateSchema_failure_keeps_earlier_statements_witness :
    ∃ (k n : Nat) (s err : String),
      (executedSpec (schemaVersion freshStore).1 scriptFailing)[k]? = some (n, s) ∧
      (schemaVersion freshStore).1 < (n : Int) ∧
      failOn "BOGUS;" (freshStore.applied ++
        ((executedSpec (schemaVersion freshStore).1 scriptFailing).take k).map Prod.snd) s =
        some err ∧
      (⟨"Failed to apply schema: syntax error",
        ⟨some [], ["/** v1 */CREATE TABLE a (x INT);"]⟩⟩ : Fatal).db.applied =
        freshStore.applied ++
          ((executedSpec (schemaVersion freshStore).1 scriptFailing).take k).map Prod.snd ∧
      (∀ p ∈ (executedSpec (schemaVersion freshStore).1 scriptFailing).take k,
        p.2 ∈ (⟨"Failed to apply schema: syntax error",
          ⟨some [], ["/** v1 */CREATE TABLE a (x INT);"]⟩⟩ : Fatal).db.applied) ∧
      selectVersion (⟨"Failed to apply schema: syntax error",
        ⟨some [], ["/** v1 */CREATE TABLE a (x INT);"]⟩⟩ : Fatal).db = selectVersion freshStore :=
  updateSchema_failure_keeps_earlier_statements (failOn "BOGUS;") scriptFailing freshStore
    ⟨"Failed to apply schema: syntax error", ⟨some [], ["/** v1 */CREATE TABLE a (x INT);"]⟩⟩ rfl

/-- C4, counterexample: at stored version 1 the run-on script makes
`updateSchema` execute one statement, and that statement contains the text of
`CREATE TABLE a (x INT)`, a line of block 1. -/
theorem updateSchema_runs_text_of_applied_block :
    (schemaVersion (storeAt 1)).1 = 1 ∧
    tracedFrom 1 scriptRunOn [] 0 =
      [[(1, "/** v1 */"), (1, "CREATE TABLE a (x INT)"),
        (2, "/** v2 */"), (2, "CREATE TABLE b (y INT);")]] ∧
    updateSchema acceptAll scriptRunOn (storeAt 1) =
      .ok ⟨some [2], ["/** v1 */CREATE TABLE a (x INT)/** v2 */CREATE TABLE b (y INT);"]⟩ :=
  ⟨rfl, rfl, rfl⟩

/-- C4 as amended: for a script in which every statement is closed before the
next block marker, the statements `updateSchema` executes are made up of the
traced lines, each traced line is a line of the script tagged with the block
counter at its position, and every line that contributes text to an executed
statement was read in a block numbered above the stored version. -/
theorem updateSchema_skips_applied_blocks (script : List String) (d : Db)
    (hclean : closedAtMarkers script) :
    (tracedFrom (schemaVersion d).1 script [] 0).map textOf = toExecute script d ∧
    (∀ seg ∈ tracedFrom (schemaVersion d).1 script [] 0, ∀ p ∈ seg,
      ∃ i, script[i]? = some p.2 ∧ blockCounterAt script i = p.1) ∧
    ∀ seg ∈ tracedFrom (schemaVersion d).1 script [] 0, ∀ p ∈ seg,
      p.2 ≠ "" → (schemaVersion d).1 < (p.1 : Int) := by
  have hnil : textOf [] = "" := by simp [textOf, String.join]
  refine ⟨?_, ?_, ?_⟩
  · rw [tracedFrom_text, hnil, pendingFrom_eq_executedSpec]
    rfl
  · exact tracedFrom_tags _ script script [] [] (by simp) (by simp)
  · apply tracedFrom_blocks _ script [] 0 (by simp)
    intro pre line post hscript hm
    rw [hnil]
    have hlen : pre.length < script.length := by rw [hscript]; simp
    have hget : script[pre.length]? = some line := by
      rw [hscript, List.getElem?_append_right (le_refl _)]
      simp
    have htake : script.take pre.length = pre := by rw [hscript]; simp
    have := hclean pre.length hlen (by simp [markerAt, hget, hm])
    rwa [htake] at this

/-- C4 as amended, on the three-block script at version 1. -/
theorem updateSchema_skips_applied_blocks_witness :
    (tracedFrom (schemaVersion (storeAt 1)).1 scriptThreeBlocks [] 0).map textOf =
      ["/** v2 */CREATE TABLE servers (id INTEGER PRIMARY KEY);",
       "/** v3 */CREATE TABLE channels (id INTEGER PRIMARY KEY);",
       "CREATE INDEX ch ON channels (id);"] ∧
    ∀ seg ∈ tracedFrom (schemaVersion (storeAt 1)).1 scriptThreeBlocks [] 0, ∀ p ∈ seg,
      p.2 ≠ "" → (schemaVersion (storeAt 1)).1 < (p.1 : Int) :=
  have h := updateSchema_skips_applied_blocks scriptThreeBlocks (storeAt 1) (by
    unfold closedAtMarkers
    decide)
  ⟨h.1.trans rfl, h.2.2⟩

/-- C8: on a store with no servers, `AddServer` followed by `ListServers`
returns exactly the server added, with the fields given, a non-zero `Id` and
that `Id` written back; `RemoveServer` on it then succeeds and leaves it out of
`ListServers`. -/
theorem server_round_trip (ds : DataStore) (s : Server) (hempty : ds.servers.rows = []) :
    (AddServer ds s).1 = none ∧
    ListServers (AddServer ds s).2.2 = ([(AddServer ds s).2.1], none) ∧
    (AddServer ds s).2.1.Name = s.Name ∧ (AddServer ds s).2.1.Host = s.Host ∧
    (AddServer ds s).2.1.Port = s.Port ∧ (AddServer ds s).2.1.Description = s.Description ∧
    (AddServer ds s).2.1.Id ≠ 0 ∧
    (RemoveServer (AddServer ds s).2.2 (AddServer ds s).2.1).1 = none ∧
    (AddServer ds s).2.1 ∉
      (ListServers (RemoveServer (AddServer ds s).2.2 (AddServer ds s).2.1).2).1 := by
  simp [AddServer, ListServers, RemoveServer, insertServer, deleteServer, hempty]
  omega

/-- C8 for the Freenode server on a store whose tables are empty. -/
theorem server_round_trip_witness :
    ListServers (AddServer (emptyStore 4) freenode).2.2 =
      ([⟨5, "Freenode", "chat.freenode.net", 6667, ""⟩], none) ∧
    (AddServer (emptyStore 4) freenode).2.1.Id ≠ 0 ∧
    (ListServers (RemoveServer (AddServer (emptyStore 4) freenode).2.2
      (AddServer (emptyStore 4) freenode).2.1).2).1 = [] := by
  have h := server_round_trip (emptyStore 4) freenode rfl
  exact ⟨h.2.1.trans rfl, h.2.2.2.2.2.2.1, rfl⟩

/-- C9: the query text that `FindAccountByLogin` sends spells the comparison
`:=`.  Under any engine that cannot prepare that text the call returns the zero
account and a storage error for every email, whatever accounts are stored:
neither the stored account nor `NotFound`. -/
theorem FindAccountByLogin_rejected (sqlOk : String → Bool) (ds : DataStore) (email : String)
    (hbad : sqlOk "SELECT * FROM accounts WHERE email := ?" = false) :
    FindAccountByLogin sqlOk ds email =
      (⟨0, "", "", ""⟩,
        some (.storageError "cannot prepare: SELECT * FROM accounts WHERE email := ?")) := by
  simp [FindAccountByLogin, selectOneAccount, hbad]

/-- C9 after adding exactly one account with email `a@example.com`: the lookup
of that email fails. -/
theorem FindAccountByLogin_rejected_witness :
    (AddAccount (emptyStore 0) alice).2.2.accounts.rows =
      [⟨1, "a@example.com", "Alice", "hash"⟩] ∧
    FindAccountByLogin sqliteTokenizes (AddAccount (emptyStore 0) alice).2.2 "a@example.com" =
      (⟨0, "", "", ""⟩,
        some (.storageError "cannot prepare: SELECT * FROM accounts WHERE email := ?")) :=
  ⟨rfl, FindAccountByLogin_rejected sqliteTokenizes _ "a@example.com" rfl⟩

end db
